import Mathlib

/-!
Verification development for the `yaml_config_loader` package
(file `yaml_config_loader/config.py`).

The Python module keeps a value `_items : Option Val` inside a `_Config`
object, fills it once from a rendered-and-parsed YAML string, and serves
nested lookups.  We embed the Python values as the inductive type `Val`,
Python exceptions as the inductive type `PyError`, and each method as an
executable Lean function that follows the Python statement by statement.
The external collaborators (the jinja2 templating engine and the YAML
parser) are out of scope of the repository; they are modelled from the
spec's interface description and clearly marked as such.
-/

namespace YamlConfig

/-- A parsed YAML value as Python represents it: strings, integers,
booleans, `None`, dictionaries (association lists keyed by strings, in
insertion order, as Python dicts are ordered) and lists. -/
inductive Val where
  | str : String → Val
  | int : Int → Val
  | bool : Bool → Val
  | null : Val
  | map : List (String × Val) → Val
  | seq : List Val → Val

/-- Python truthiness (`bool(v)`): `None`, `False`, `0`, the empty string
and empty containers are falsy, everything else is truthy.  Used by the
source line `self._items = yaml.safe_load(yaml_text) or {}`. -/
def truthy : Val → Bool
  | .null => false
  | .bool b => b
  | .int n => n != 0
  | .str s => s != ""
  | .map es => !es.isEmpty
  | .seq xs => !xs.isEmpty

/-- `leadsWith pat s`: the character list `pat` is an initial segment of
`s`.  Helper for the Python substring test. -/
def leadsWith : List Char → List Char → Bool
  | [], _ => true
  | _ :: _, [] => false
  | a :: as, b :: bs => a == b && leadsWith as bs

/-- `subAt pat s`: `pat` occurs as a contiguous run somewhere in `s`.
Helper for the Python substring test. -/
def subAt (pat : List Char) : List Char → Bool
  | [] => leadsWith pat []
  | b :: bs => leadsWith pat (b :: bs) || subAt pat bs

/-- Python `key in s` on strings: substring containment (the empty
pattern is contained in every string). -/
def strContains (s pat : String) : Bool :=
  subAt pat.data s.data

/-- The Python exceptions the module can raise, with their messages where
a message is interpolated.  `ValueError` is the "key not found" error of
`_Config.get`; `ConfigNotInitializedError` and
`ConfigAlreadyInitializedError` are the classes defined in the module;
`AttributeError` and `TypeError` are the runtime errors Python itself
raises (quotes of the CPython message texts are elided);
`UndefinedError` is `jinja2.exceptions.UndefinedError`, `ScannerError`
is `yaml.scanner.ScannerError`, and `IOErr` is the `IOError` raised by
`init_from_file`. -/
inductive PyError where
  | ValueError : String → PyError
  | AttributeError : String → PyError
  | TypeError : String → PyError
  | ConfigNotInitializedError : PyError
  | ConfigAlreadyInitializedError : PyError
  | UndefinedError : String → PyError
  | ScannerError : String → PyError
  | IOErr : String → PyError
deriving DecidableEq

/-- Python `key in value` for the values `value` can take during the walk
in `_Config.get`: dictionary key membership, substring containment on
strings, element membership on lists, and a `TypeError` on the
non-container scalars. -/
def pyContains (v : Val) (key : String) : Except PyError Bool :=
  match v with
  | .map es => .ok (es.any (fun p => p.1 == key))
  | .str s => .ok (strContains s key)
  | .seq xs => .ok (xs.any (fun x => match x with
      | .str s => s == key
      | _ => false))
  | .int _ => .error (.TypeError "argument of type int is not iterable")
  | .bool _ => .error (.TypeError "argument of type bool is not iterable")
  | .null => .error (.TypeError "argument of type NoneType is not iterable")

/-- Python `value.get(key)`: on a dictionary it returns the mapped value
(or `None` when absent); every other type has no `get` attribute and
raises `AttributeError`. -/
def dotGet (v : Val) (key : String) : Except PyError Val :=
  match v with
  | .map es =>
      .ok (match es.find? (fun p => p.1 == key) with
           | some p => p.2
           | none => .null)
  | .str _ => .error (.AttributeError "str object has no attribute get")
  | .seq _ => .error (.AttributeError "list object has no attribute get")
  | .int _ => .error (.AttributeError "int object has no attribute get")
  | .bool _ => .error (.AttributeError "bool object has no attribute get")
  | .null => .error (.AttributeError "NoneType object has no attribute get")

/-- The `_Config` object: its single attribute `_items`, `none` while
uninitialized. -/
structure Config where
  items : Option Val

/-- The loop body of `_Config.get`:
`for key in keys: if key not in value: raise ValueError(...); value = value.get(key)`. -/
def getWalk : Val → List String → Except PyError Val
  | value, [] => .ok value
  | value, key :: rest =>
      match pyContains value key with
      | .error e => .error e
      | .ok b =>
          if b then
            match dotGet value key with
            | .error e => .error e
            | .ok v => getWalk v rest
          else
            .error (.ValueError (key ++ " is not found in config."))

/-- `_Config.get(*keys)`: raises `ConfigNotInitializedError` when
`_items is None`, otherwise walks the keys and returns
`copy.deepcopy(value)` (a deep copy is observationally the identity on
our pure values; the aliasing content of the copy is modelled separately
on an explicit heap below). -/
def Config.get (c : Config) (keys : List String) : Except PyError Val :=
  match c.items with
  | none => .error .ConfigNotInitializedError
  | some items => getWalk items keys

/-- `_Config.has_key(*keys)`: calls `get` and converts `ValueError` to
`False` and success to `True`; every other exception propagates. -/
def Config.has_key (c : Config) (keys : List String) : Except PyError Bool :=
  match c.get keys with
  | .ok _ => .ok true
  | .error (.ValueError _) => .ok false
  | .error e => .error e

/-- `_Config._tear_down()`: resets `_items` to `None`. -/
def Config.tear_down (_c : Config) : Config :=
  ⟨none⟩

/-- Modelled from the spec: the external templating collaborator
(jinja2) consumes "a text document plus a mapping of named variables".
We represent the template text by its sequence of segments: literal text
and double-curly-brace substitution markers naming a variable. -/
inductive Segment where
  | lit : String → Segment
  | subst : String → Segment
deriving DecidableEq

/-- A template text, as its list of segments. -/
abbrev Template := List Segment

/-- The variable names referenced by the template's substitution
markers, in order of appearance. -/
def refNames : Template → List String
  | [] => []
  | .lit _ :: rest => refNames rest
  | .subst n :: rest => n :: refNames rest

/-- Keyword-argument lookup: the value bound to name `n` in the supplied
variables, if any. -/
def lookupVar (vars : List (String × String)) (n : String) : Option String :=
  (vars.find? (fun p => p.1 == n)).map (fun p => p.2)

/-- Modelled from the spec: `template.render(jinja_variables)` with
`jinja2.StrictUndefined` — renders segments left to right, substituting
each marker from the supplied variables, and fails with
`jinja2.exceptions.UndefinedError` naming the first marker whose
variable is absent; unused supplied variables are ignored. -/
def render : Template → List (String × String) → Except PyError String
  | [], _ => .ok ""
  | .lit s :: rest, vars =>
      match render rest vars with
      | .error e => .error e
      | .ok t => .ok (s ++ t)
  | .subst n :: rest, vars =>
      match lookupVar vars n with
      | none => .error (.UndefinedError n)
      | some s =>
          match render rest vars with
          | .error e => .error e
          | .ok t => .ok (s ++ t)

/-- The Python expression `yaml.safe_load(yaml_text) or {}`:
`safe_load` yields `None` on an empty document (modelled as `none`) and
the parsed value otherwise; `x or y` in Python returns `y` whenever `x`
is falsy. -/
def orEmpty : Option Val → Val
  | none => .map []
  | some v => if truthy v then v else .map []

/-- `_Config._init(yaml_string, **jinja_variables)`, in state-passing
form: the pair holds the raised exception (if any) and the `_Config`
state after the call.  The YAML parser is the external collaborator and
is passed in as `parse` (with `.ok none` for an empty document, matching
`safe_load` returning `None`).  As in the source, the already-initialized
check comes first, then the render, then the parse, and the single
assignment to `_items` is the last step. -/
def Config._init (c : Config) (parse : String → Except PyError (Option Val))
    (yaml_string : Template) (jinja_variables : List (String × String)) :
    Option PyError × Config :=
  match c.items with
  | some _ => (some .ConfigAlreadyInitializedError, c)
  | none =>
      match render yaml_string jinja_variables with
      | .error e => (some e, c)
      | .ok yaml_text =>
          match parse yaml_text with
          | .error e => (some e, c)
          | .ok v => (none, ⟨some (orEmpty v)⟩)

/-- `init_from_file(file_name, **jinja_variables)`: the filesystem
collaborator is `fs`, mapping a path to the template content of the
regular file there (`none` when `os.path.isfile` is false).  As in the
source, the file check and read come first; only then does it delegate
to `init`, i.e. to `CONFIG._init`. -/
def init_from_file (fs : String → Option Template) (c : Config)
    (parse : String → Except PyError (Option Val)) (file_name : String)
    (jinja_variables : List (String × String)) : Option PyError × Config :=
  match fs file_name with
  | none => (some (.IOErr ("File not found: " ++ file_name)), c)
  | some contents => c._init parse contents jinja_variables

/-- A whitespace character (space, tab, newline, carriage return). -/
def isSpaceChar (ch : Char) : Bool :=
  ch == ' ' || ch == '\t' || ch == '\n' || ch == '\r'

/-- The text consists of whitespace only (in particular, it may be
empty). -/
def whitespaceOnly (s : String) : Bool :=
  s.data.all isSpaceChar

/-- Modelled from the spec: the external YAML parsing collaborator
(`yaml.safe_load`), restricted to the concrete documents the spec's
examples use.  Empty or whitespace-only text parses to `None`; `false`
parses to the boolean `False`; the remaining entries are the flow/block
mappings of the examples; anything else is treated as failing with a
`ScannerError`. -/
def exampleParse (s : String) : Except PyError (Option Val) :=
  if whitespaceOnly s then .ok none
  else if s = "false" then .ok (some (.bool false))
  else if s = "KEY: VAL" then .ok (some (.map [("KEY", .str "VAL")]))
  else if s = "key: multiple word value" then
    .ok (some (.map [("key", .str "multiple word value")]))
  else if s = "PARENT:\n  CHILD: VAL" then
    .ok (some (.map [("PARENT", .map [("CHILD", .str "VAL")])]))
  else .error (.ScannerError s)

/-!
## Heap model of `copy.deepcopy`

The pure model above identifies values up to deep equality, so the
aliasing content of `return copy.deepcopy(value)` is invisible there.
This section models the Python object graph explicitly: a heap is a list
of nodes addressed by position, dictionary and list nodes hold the
addresses of their children, and `copy.deepcopy` reconstructs a value
bottom-up, allocating every mutable node afresh at the end of the heap
while returning the immutable scalars (strings, ints, booleans, `None`)
as the very same objects, exactly as CPython's `deepcopy` does with
atomic types.  Caller mutation is overwriting the node at an address of
a mutable object. -/

/-- A Python object in the heap: scalars carry their value, dictionaries
and lists carry the addresses of their children. -/
inductive HVal where
  | hstr : String → HVal
  | hint : Int → HVal
  | hbool : Bool → HVal
  | hnull : HVal
  | hmap : List (String × Nat) → HVal
  | hseq : List Nat → HVal
deriving DecidableEq

/-- The Python heap: nodes addressed by list position; allocation
appends at the end. -/
abbrev Heap := List HVal

/-- Read the pure value rooted at an address, to depth `fuel`.  Two
roots are deep-equal exactly when they read back the same `Val` at every
sufficient depth. -/
def readV : Nat → Heap → Nat → Option Val
  | 0, _, _ => none
  | f+1, h, a =>
      match h[a]? with
      | none => none
      | some (.hstr s) => some (.str s)
      | some (.hint n) => some (.int n)
      | some (.hbool b) => some (.bool b)
      | some .hnull => some .null
      | some (.hmap es) =>
          (es.mapM (fun p => (readV f h p.2).map (fun v => (p.1, v)))).map Val.map
      | some (.hseq as) =>
          (as.mapM (fun b => readV f h b)).map Val.seq

/-- Every address reachable from `a` within depth `fuel` exists and is
below the bound `n`.  This is the well-formedness of a stored
configuration: its object graph lives in the first `n` cells. -/
def allBelow : Nat → Heap → Nat → Nat → Bool
  | 0, _, _, _ => false
  | f+1, h, a, n =>
      decide (a < n) &&
      match h[a]? with
      | none => false
      | some (.hmap es) => es.all (fun p => allBelow f h p.2 n)
      | some (.hseq as) => as.all (fun b => allBelow f h b n)
      | some _ => true

/-- The addresses of the mutable (dictionary or list) nodes reachable
from `a` within depth `fuel` — the places a caller holding the value can
mutate. -/
def mutReach : Nat → Heap → Nat → List Nat
  | 0, _, _ => []
  | f+1, h, a =>
      match h[a]? with
      | some (.hmap es) => a :: (es.map (fun p => mutReach f h p.2)).flatten
      | some (.hseq as) => a :: (as.map (fun b => mutReach f h b)).flatten
      | _ => []

/-- Copy a list of dictionary entries left to right with the copying
function `copy`, threading the heap. -/
def copyFold (copy : Heap → Nat → Option (Heap × Nat)) :
    Heap → List (String × Nat) → Option (Heap × List (String × Nat))
  | h, [] => some (h, [])
  | h, (k, a) :: rest =>
      match copy h a with
      | none => none
      | some (h1, a1) =>
          match copyFold copy h1 rest with
          | none => none
          | some (h2, rest1) => some (h2, (k, a1) :: rest1)

/-- Copy a list of list-element addresses left to right with the copying
function `copy`, threading the heap. -/
def copyFoldL (copy : Heap → Nat → Option (Heap × Nat)) :
    Heap → List Nat → Option (Heap × List Nat)
  | h, [] => some (h, [])
  | h, a :: rest =>
      match copy h a with
      | none => none
      | some (h1, a1) =>
          match copyFoldL copy h1 rest with
          | none => none
          | some (h2, rest1) => some (h2, a1 :: rest1)

/-- `copy.deepcopy` on the heap, to depth `fuel`: atomic scalars are
returned as the same object; dictionaries and lists are rebuilt
bottom-up, every rebuilt node allocated fresh at the end of the heap. -/
def deepcopy : Nat → Heap → Nat → Option (Heap × Nat)
  | 0, _, _ => none
  | f+1, h, a =>
      match h[a]? with
      | none => none
      | some (.hstr _) => some (h, a)
      | some (.hint _) => some (h, a)
      | some (.hbool _) => some (h, a)
      | some .hnull => some (h, a)
      | some (.hmap es) =>
          match copyFold (fun hh aa => deepcopy f hh aa) h es with
          | none => none
          | some (h1, es1) => some (h1 ++ [HVal.hmap es1], h1.length)
      | some (.hseq as) =>
          match copyFoldL (fun hh aa => deepcopy f hh aa) h as with
          | none => none
          | some (h1, as1) => some (h1 ++ [HVal.hseq as1], h1.length)

/-- Python `key in value` read off the heap (outer `none` marks a
dangling address, which cannot arise from a well-formed store). -/
def heapContains (h : Heap) (a : Nat) (key : String) :
    Option (Except PyError Bool) :=
  match h[a]? with
  | none => none
  | some (.hmap es) => some (.ok (es.any (fun p => p.1 == key)))
  | some (.hstr s) => some (.ok (strContains s key))
  | some (.hseq as) => some (.ok (as.any (fun b =>
      match h[b]? with
      | some (.hstr s) => s == key
      | _ => false)))
  | some (.hint _) =>
      some (.error (.TypeError "argument of type int is not iterable"))
  | some (.hbool _) =>
      some (.error (.TypeError "argument of type bool is not iterable"))
  | some .hnull =>
      some (.error (.TypeError "argument of type NoneType is not iterable"))

/-- Python `value.get(key)` on the heap: the address of the entry of a
dictionary node (`heapWalk` only calls it after a successful membership
test, so the missing-entry branch marks an impossible state with
`none`); any other node raises `AttributeError`. -/
def heapDotGet (h : Heap) (a : Nat) (key : String) :
    Option (Except PyError Nat) :=
  match h[a]? with
  | none => none
  | some (.hmap es) =>
      match es.find? (fun p => p.1 == key) with
      | some p => some (.ok p.2)
      | none => none
  | some _ => some (.error (.AttributeError "object has no attribute get"))

/-- The loop of `_Config.get` on the heap: walk the keys from the root
address, without copying anything. -/
def heapWalk (h : Heap) (a : Nat) : List String → Option (Except PyError Nat)
  | [] => some (.ok a)
  | key :: rest =>
      match heapContains h a key with
      | none => none
      | some (.error e) => some (.error e)
      | some (.ok b) =>
          if b then
            match heapDotGet h a key with
            | none => none
            | some (.error e) => some (.error e)
            | some (.ok a1) => heapWalk h a1 rest
          else some (.error (.ValueError (key ++ " is not found in config.")))

/-- `_Config.get` on the heap, for an initialized store rooted at
`root`: walk the keys, then `return copy.deepcopy(value)`.  Returns the
heap after the call together with the address handed to the caller. -/
def heapGet (fuel : Nat) (h : Heap) (root : Nat) (keys : List String) :
    Option (Except PyError (Heap × Nat)) :=
  match heapWalk h root keys with
  | none => none
  | some (.error e) => some (.error e)
  | some (.ok a) =>
      match deepcopy fuel h a with
      | none => none
      | some (h1, r) => some (.ok (h1, r))

/-- `_Config.has_key` on the heap: runs `get`, converts `ValueError` to
`False` (the allocation of the discarded copy never happened in that
case, since `get` raised before copying) and success to `True`. -/
def heapHasKey (fuel : Nat) (h : Heap) (root : Nat) (keys : List String) :
    Option (Except PyError (Heap × Bool)) :=
  match heapGet fuel h root keys with
  | none => none
  | some (.ok (h1, _)) => some (.ok (h1, true))
  | some (.error (.ValueError _)) => some (.ok (h, false))
  | some (.error e) => some (.error e)

/-- Caller-side mutation of a returned object: overwrite the node at one
address in place (a dictionary or list update). -/
def heapWrite (h : Heap) (a : Nat) (x : HVal) : Heap :=
  h.set a x

/-- The heap holding the spec's nested example document: address 2 roots
the dictionary mapping PARENT to the dictionary at 1, which maps CHILD
to the string at 0. -/
def exampleHeap : Heap :=
  [.hstr "VAL", .hmap [("CHILD", 0)], .hmap [("PARENT", 1)]]

/-- The contract of a copying function: it only ever extends the heap,
and on a source bounded by `n` within the first `h.length` cells it
produces a well-formed copy that reads back the same value at every
depth and whose reachable mutable nodes are all fresh (at or above the
entry heap's length). -/
def CopyOK (copy : Heap → Nat → Option (Heap × Nat)) : Prop :=
  ∀ h a h2 r, copy h a = some (h2, r) →
    (∃ tail, h2 = h ++ tail)
    ∧ (∀ F n, allBelow F h a n = true → n ≤ h.length →
        allBelow F h2 r h2.length = true
        ∧ (∀ g, readV g h2 r = readV g h a)
        ∧ (∀ g m, m ∈ mutReach g h2 r → h.length ≤ m))

/-!
## Helper lemmas
-/

/-- A `_Config` whose `_items` is `None` is the uninitialized object. -/
theorem config_eq_of_items_none {c : Config} (h : c.items = none) : c = ⟨none⟩ := by
  cases c
  simp_all

/-- Any failing `_init` leaves the state exactly as it was: the single
assignment to `_items` is the last statement of the method, after every
raise site. -/
theorem init_error_frame {c : Config} {parse : String → Except PyError (Option Val)}
    {t : Template} {vars : List (String × String)} {e : PyError} {c' : Config}
    (h : c._init parse t vars = (some e, c')) : c' = c := by
  unfold Config._init at h
  split at h
  · exact (congrArg Prod.snd h).symm
  · split at h
    · exact (congrArg Prod.snd h).symm
    · split at h
      · exact (congrArg Prod.snd h).symm
      · exact absurd (congrArg Prod.fst h) (by simp)

/-- A failing `init_from_file` leaves the state exactly as it was. -/
theorem init_from_file_error_frame {fs : String → Option Template} {c : Config}
    {parse : String → Except PyError (Option Val)} {name : String}
    {vars : List (String × String)} {e : PyError} {c' : Config}
    (h : init_from_file fs c parse name vars = (some e, c')) : c' = c := by
  unfold init_from_file at h
  cases hf : fs name with
  | none => rw [hf] at h; cases h; rfl
  | some contents => rw [hf] at h; exact init_error_frame h

/-- If the first referenced variable without a binding is `m`, rendering
fails with the undefined-variable error naming `m`. -/
theorem render_error_of_firstMissing {t : Template} {vars : List (String × String)}
    {m : String}
    (h : (refNames t).find? (fun k => (lookupVar vars k).isNone) = some m) :
    render t vars = .error (.UndefinedError m) := by
  induction t with
  | nil => simp [refNames] at h
  | cons seg rest ih =>
      cases seg with
      | lit s =>
          simp only [refNames] at h
          simp only [render, ih h]
      | subst k =>
          simp only [refNames, List.find?] at h
          cases hk : (lookupVar vars k).isNone with
          | true =>
              rw [hk] at h
              simp only [Option.some.injEq] at h
              subst h
              simp only [render, Option.isNone_iff_eq_none.mp hk]
          | false =>
              rw [hk] at h
              simp only [render]
              cases hlk : lookupVar vars k with
              | none => rw [hlk] at hk; simp at hk
              | some s => simp only [ih h]

/-- A supplied variable that the template never references does not
change the rendering. -/
theorem render_unused {t : Template} {n s : String} {vars : List (String × String)}
    (h : n ∉ refNames t) : render t ((n, s) :: vars) = render t vars := by
  induction t with
  | nil => rfl
  | cons seg rest ih =>
      cases seg with
      | lit s1 =>
          simp only [refNames] at h
          simp only [render, ih h]
      | subst k =>
          simp only [refNames, List.mem_cons, not_or] at h
          have hk : lookupVar ((n, s) :: vars) k = lookupVar vars k := by
            unfold lookupVar
            simp only [List.find?]
            have hnk : (n == k) = false := beq_eq_false_iff_ne.mpr h.1
            simp [hnk]
          simp only [render, hk, ih h.2]

/-!
## Claim theorems (pure model)
-/

/-- Claim C1 (code bug): the spec and the module's own test expect
`get("KEY","KEY2")` on the document mapping KEY to the string
"String with KEY2 in it" to fail with the key-not-found `ValueError` and
`has_key` to return `False`; the code instead finds KEY2 as a substring
of the string (Python `in`), then calls `.get` on the string and raises
`AttributeError`, which `has_key` does not catch.  The last conjunct
shows the contrasting non-substring input, where the code does raise the
key-not-found `ValueError`. -/
theorem claim_C1_substring_key_raises_attribute_error :
    Config.get ⟨some (.map [("KEY", .str "String with KEY2 in it")])⟩ ["KEY", "KEY2"]
      = .error (.AttributeError "str object has no attribute get")
    ∧ Config.has_key ⟨some (.map [("KEY", .str "String with KEY2 in it")])⟩ ["KEY", "KEY2"]
      = .error (.AttributeError "str object has no attribute get")
    ∧ strContains "String with KEY2 in it" "KEY2" = true
    ∧ Config.get ⟨some (.map [("KEY", .str "String with KEY in it")])⟩ ["KEY", "KEY2"]
      = .error (.ValueError "KEY2 is not found in config.") :=
  ⟨rfl, rfl, rfl, rfl⟩

/-- Claim C2, counterexample: with the store already initialized,
`init_from_file` on a missing path fails with the file-not-found
`IOError`, not with `ConfigAlreadyInitializedError` — the file check
runs before the already-initialized check. -/
theorem claim_C2_counterexample :
    init_from_file (fun _ => none) ⟨some (.map [("KEY", .str "VAL")])⟩ exampleParse
        "non_existant_file.yaml" []
      = (some (.IOErr "File not found: non_existant_file.yaml"),
         ⟨some (.map [("KEY", .str "VAL")])⟩)
    ∧ PyError.IOErr "File not found: non_existant_file.yaml"
        ≠ PyError.ConfigAlreadyInitializedError :=
  ⟨rfl, fun h => nomatch h⟩

/-- Claim C2 as amended: `init` on an already-initialized store fails
with `ConfigAlreadyInitializedError` before any rendering or parsing
work; `init_from_file` checks and reads the file first, so on a missing
path it fails with `IOError` regardless of initialization state; and
every failing `init` or `init_from_file` leaves `_items` exactly as it
was. -/
theorem claim_C2_init_guard_and_failure_frame (c : Config)
    (parse : String → Except PyError (Option Val)) (t : Template)
    (vars : List (String × String)) (fs : String → Option Template) (name : String)
    (e e2 : PyError) (c' c2 : Config) :
    (c.items ≠ none → c._init parse t vars = (some .ConfigAlreadyInitializedError, c))
    ∧ (fs name = none →
        init_from_file fs c parse name vars
          = (some (.IOErr ("File not found: " ++ name)), c))
    ∧ (c._init parse t vars = (some e, c') → c' = c)
    ∧ (init_from_file fs c parse name vars = (some e2, c2) → c2 = c) := by
  refine ⟨?_, ?_, fun h => init_error_frame h, fun h => init_from_file_error_frame h⟩
  · intro h
    cases hc : c.items with
    | none => exact absurd hc h
    | some v => simp [Config._init, hc]
  · intro h
    simp [init_from_file, h]

/-- Witness for C2's amended theorem: concrete instances of all four
conjuncts. -/
theorem claim_C2_witness :
    Config._init ⟨some (.map [])⟩ exampleParse [] []
      = (some .ConfigAlreadyInitializedError, ⟨some (.map [])⟩)
    ∧ init_from_file (fun _ => none) ⟨none⟩ exampleParse "a.yaml" []
      = (some (.IOErr "File not found: a.yaml"), ⟨none⟩)
    ∧ (⟨none⟩ : Config) = ⟨none⟩
    ∧ (⟨none⟩ : Config) = ⟨none⟩ := by
  refine ⟨?_, ?_, ?_, ?_⟩
  · exact (claim_C2_init_guard_and_failure_frame ⟨some (.map [])⟩ exampleParse [] []
      (fun _ => none) "a.yaml" .ConfigNotInitializedError .ConfigNotInitializedError
      ⟨none⟩ ⟨none⟩).1 (by simp)
  · exact (claim_C2_init_guard_and_failure_frame ⟨none⟩ exampleParse [] []
      (fun _ => none) "a.yaml" .ConfigNotInitializedError .ConfigNotInitializedError
      ⟨none⟩ ⟨none⟩).2.1 rfl
  · exact (claim_C2_init_guard_and_failure_frame ⟨none⟩ exampleParse [.subst "v"] []
      (fun _ => none) "a.yaml" (.UndefinedError "v") .ConfigNotInitializedError
      ⟨none⟩ ⟨none⟩).2.2.1 rfl
  · exact (claim_C2_init_guard_and_failure_frame ⟨none⟩ exampleParse [.subst "v"] []
      (fun _ => none) "a.yaml" (.UndefinedError "v")
      (.IOErr "File not found: a.yaml") ⟨none⟩ ⟨none⟩).2.2.2 rfl

/-- Claim C3: `has_key` returns `True` exactly when `get` succeeds and
`False` exactly when `get` fails with the key-not-found `ValueError`;
on an uninitialized store both `get` and `has_key` fail with
`ConfigNotInitializedError` (no silent `False`). -/
theorem claim_C3_has_key_mirrors_get (c : Config) (keys : List String) :
    ((c.has_key keys = .ok true) ↔ (∃ v, c.get keys = .ok v))
    ∧ ((c.has_key keys = .ok false) ↔ (∃ msg, c.get keys = .error (.ValueError msg)))
    ∧ (c.items = none →
        c.get keys = .error .ConfigNotInitializedError
        ∧ c.has_key keys = .error .ConfigNotInitializedError) := by
  refine ⟨?_, ?_, ?_⟩
  · cases hg : c.get keys with
    | ok v => simp [Config.has_key, hg]
    | error e => cases e <;> simp [Config.has_key, hg]
  · cases hg : c.get keys with
    | ok v => simp [Config.has_key, hg]
    | error e => cases e <;> simp [Config.has_key, hg]
  · intro h
    have hg : c.get keys = .error .ConfigNotInitializedError := by
      simp [Config.get, h]
    exact ⟨hg, by simp [Config.has_key, hg]⟩

/-- Witness for C3: on the document mapping KEY to VAL, `has_key` is
`True` on present and `False` on absent keys; on the fresh store both
operations fail with `ConfigNotInitializedError`. -/
theorem claim_C3_witness :
    Config.has_key ⟨some (.map [("KEY", .str "VAL")])⟩ ["KEY"] = .ok true
    ∧ Config.has_key ⟨some (.map [("KEY", .str "VAL")])⟩ ["BAD_KEY"] = .ok false
    ∧ Config.get ⟨none⟩ ["KEY"] = .error .ConfigNotInitializedError
    ∧ Config.has_key ⟨none⟩ ["KEY"] = .error .ConfigNotInitializedError := by
  refine ⟨?_, ?_, ?_, ?_⟩
  · exact (claim_C3_has_key_mirrors_get ⟨some (.map [("KEY", .str "VAL")])⟩ ["KEY"]).1.mpr
      ⟨.str "VAL", rfl⟩
  · exact (claim_C3_has_key_mirrors_get ⟨some (.map [("KEY", .str "VAL")])⟩ ["BAD_KEY"]).2.1.mpr
      ⟨"BAD_KEY is not found in config.", rfl⟩
  · exact ((claim_C3_has_key_mirrors_get ⟨none⟩ ["KEY"]).2.2 rfl).1
  · exact ((claim_C3_has_key_mirrors_get ⟨none⟩ ["KEY"]).2.2 rfl).2

/-- Claim C4, counterexample: the document `false` is valid, contains no
template markers, and parses to the boolean `False`; but since
`yaml.safe_load(..) or ` coerces every falsy parse to the empty mapping,
`init("false")` stores the empty mapping and `get()` returns it, which
is not deep-equal to the direct parse result. -/
theorem claim_C4_counterexample :
    exampleParse "false" = .ok (some (.bool false))
    ∧ render [Segment.lit "false"] [] = .ok "false"
    ∧ Config._init ⟨none⟩ exampleParse [.lit "false"] [] = (none, ⟨some (.map [])⟩)
    ∧ Config.get ⟨some (.map [])⟩ [] = .ok (.map [])
    ∧ Val.map [] ≠ Val.bool false :=
  ⟨rfl, rfl, rfl, rfl, fun h => nomatch h⟩

/-- Claim C4 as amended: for every valid document `D` containing no
template markers whose direct parse result is a truthy value (in
particular any non-empty mapping), `init(D)` on an uninitialized store
succeeds and a subsequent `get()` with the empty key path returns a
structure deep-equal to parsing `D` directly. -/
theorem claim_C4_roundtrip_truthy (c : Config)
    (parse : String → Except PyError (Option Val)) (D : String) (v : Val) :
    c.items = none → parse D = .ok (some v) → truthy v = true →
    c._init parse [.lit D] [] = (none, ⟨some v⟩)
    ∧ Config.get ⟨some v⟩ [] = .ok v := by
  intro hnone hp ht
  have hr : render [Segment.lit D] [] = .ok D := by
    simp [render, String.append_empty]
  constructor
  · simp [Config._init, hnone, hr, hp, orEmpty, ht]
  · rfl

/-- Witness for C4's amended theorem at the document KEY: VAL. -/
theorem claim_C4_witness :
    Config._init ⟨none⟩ exampleParse [.lit "KEY: VAL"] []
      = (none, ⟨some (.map [("KEY", .str "VAL")])⟩)
    ∧ Config.get ⟨some (.map [("KEY", .str "VAL")])⟩ []
      = .ok (.map [("KEY", .str "VAL")]) :=
  claim_C4_roundtrip_truthy ⟨none⟩ exampleParse "KEY: VAL"
    (.map [("KEY", .str "VAL")]) rfl rfl rfl

/-- Claim C5, counterexample: after a successful `init` of the empty
document, a further `init_from_file` on a missing path fails with the
file-not-found `IOError`, not with `ConfigAlreadyInitializedError`. -/
theorem claim_C5_counterexample :
    Config._init ⟨none⟩ exampleParse [.lit ""] [] = (none, ⟨some (.map [])⟩)
    ∧ init_from_file (fun _ => none) ⟨some (.map [])⟩ exampleParse
        "still_missing.yaml" []
      = (some (.IOErr "File not found: still_missing.yaml"), ⟨some (.map [])⟩)
    ∧ PyError.IOErr "File not found: still_missing.yaml"
        ≠ PyError.ConfigAlreadyInitializedError :=
  ⟨rfl, rfl, fun h => nomatch h⟩

/-- Claim C5 as amended: after any successful `init` — including one
that loaded an empty document — the store is initialized; every further
`init` fails with `ConfigAlreadyInitializedError`, as does every further
`init_from_file` whose path names an existing file (on a missing path it
fails with `IOError` instead, see the counterexample); and after
`_tear_down` the same `init` succeeds again. -/
theorem claim_C5_exactly_once_per_epoch (c c' : Config)
    (parse parse2 : String → Except PyError (Option Val)) (t t2 : Template)
    (vars vars2 : List (String × String)) (fs : String → Option Template)
    (name : String) (contents : Template) :
    c._init parse t vars = (none, c') →
    c'.items ≠ none
    ∧ c'._init parse2 t2 vars2 = (some .ConfigAlreadyInitializedError, c')
    ∧ (fs name = some contents →
        init_from_file fs c' parse2 name vars2
          = (some .ConfigAlreadyInitializedError, c'))
    ∧ Config.tear_down c' = ⟨none⟩
    ∧ (Config.tear_down c')._init parse t vars = (none, c') := by
  intro h
  have hcnone : c.items = none := by
    cases hc : c.items with
    | none => rfl
    | some v =>
        rw [show c._init parse t vars = (some .ConfigAlreadyInitializedError, c) by
          simp [Config._init, hc]] at h
        exact absurd (congrArg Prod.fst h) (by simp)
  have hc' : ∃ w, c'.items = some w := by
    unfold Config._init at h
    split at h
    · exact absurd (congrArg Prod.fst h) (by simp)
    · split at h
      · exact absurd (congrArg Prod.fst h) (by simp)
      · split at h
        · exact absurd (congrArg Prod.fst h) (by simp)
        · cases h
          exact ⟨_, rfl⟩
  obtain ⟨w, hw⟩ := hc'
  refine ⟨by simp [hw], by simp [Config._init, hw], ?_, rfl, ?_⟩
  · intro hfs
    simp [init_from_file, hfs, Config._init, hw]
  · rw [show Config.tear_down c' = ⟨none⟩ from rfl, ← config_eq_of_items_none hcnone]
    exact h

/-- Witness for C5's amended theorem at the empty document. -/
theorem claim_C5_witness :
    (⟨some (.map [])⟩ : Config).items ≠ none
    ∧ Config._init ⟨some (.map [])⟩ exampleParse [.lit "KEY: VAL"] []
      = (some .ConfigAlreadyInitializedError, ⟨some (.map [])⟩)
    ∧ init_from_file (fun _ => some [.lit "KEY: VAL"]) ⟨some (.map [])⟩ exampleParse
        "existing.yaml" [] = (some .ConfigAlreadyInitializedError, ⟨some (.map [])⟩)
    ∧ Config.tear_down ⟨some (.map [])⟩ = ⟨none⟩
    ∧ (Config.tear_down ⟨some (.map [])⟩)._init exampleParse [.lit ""] []
      = (none, ⟨some (.map [])⟩) := by
  have h := claim_C5_exactly_once_per_epoch ⟨none⟩ ⟨some (.map [])⟩ exampleParse
    exampleParse [.lit ""] [.lit "KEY: VAL"] [] []
    (fun _ => some [.lit "KEY: VAL"]) "existing.yaml" [.lit "KEY: VAL"] rfl
  exact ⟨h.1, h.2.1, h.2.2.1 rfl, h.2.2.2.1, h.2.2.2.2⟩

/-!
## Heap-model lemmas
-/

/-- Two pointwise-equal functions give equal `mapM` over `Option`. -/
theorem mapM_option_congr {α β : Type} {l : List α} {F G : α → Option β}
    (h : ∀ x ∈ l, F x = G x) : l.mapM F = l.mapM G := by
  induction l with
  | nil => rfl
  | cons x xs ih =>
      simp only [List.mapM_cons, h x (List.mem_cons_self x xs),
        ih (fun y hy => h y (List.mem_cons_of_mem x hy))]

/-- A bounded root is below the bound. -/
theorem allBelow_lt {f : Nat} {h : Heap} {a n : Nat}
    (hab : allBelow f h a n = true) : a < n := by
  cases f with
  | zero => simp [allBelow] at hab
  | succ f =>
      simp only [allBelow, Bool.and_eq_true, decide_eq_true_eq] at hab
      exact hab.1

/-- A bounded root names an existing node. -/
theorem allBelow_node {f : Nat} {h : Heap} {a n : Nat}
    (hab : allBelow (f + 1) h a n = true) : ∃ node, h[a]? = some node := by
  simp only [allBelow, Bool.and_eq_true] at hab
  obtain ⟨-, h2⟩ := hab
  cases hx : h[a]? with
  | none => rw [hx] at h2; simp at h2
  | some node => exact ⟨node, rfl⟩

/-- Children of a bounded dictionary node are bounded at one less
fuel. -/
theorem allBelow_map_children {f : Nat} {h : Heap} {a n : Nat}
    {es : List (String × Nat)} (hab : allBelow (f + 1) h a n = true)
    (hnode : h[a]? = some (.hmap es)) :
    ∀ p ∈ es, allBelow f h p.2 n = true := by
  simp only [allBelow, Bool.and_eq_true] at hab
  obtain ⟨-, h2⟩ := hab
  rw [hnode] at h2
  simpa [List.all_eq_true] using h2

/-- Children of a bounded list node are bounded at one less fuel. -/
theorem allBelow_seq_children {f : Nat} {h : Heap} {a n : Nat}
    {as : List Nat} (hab : allBelow (f + 1) h a n = true)
    (hnode : h[a]? = some (.hseq as)) :
    ∀ b ∈ as, allBelow f h b n = true := by
  simp only [allBelow, Bool.and_eq_true] at hab
  obtain ⟨-, h2⟩ := hab
  rw [hnode] at h2
  simpa [List.all_eq_true] using h2

/-- Introduction form of `allBelow` at a dictionary node. -/
theorem allBelow_succ_map {f : Nat} {h : Heap} {a n : Nat}
    {es : List (String × Nat)} (ha : a < n) (hnode : h[a]? = some (.hmap es))
    (hch : ∀ p ∈ es, allBelow f h p.2 n = true) :
    allBelow (f + 1) h a n = true := by
  simp only [allBelow, Bool.and_eq_true, decide_eq_true_eq]
  refine ⟨ha, ?_⟩
  rw [hnode]
  simpa [List.all_eq_true] using hch

/-- Introduction form of `allBelow` at a list node. -/
theorem allBelow_succ_seq {f : Nat} {h : Heap} {a n : Nat}
    {as : List Nat} (ha : a < n) (hnode : h[a]? = some (.hseq as))
    (hch : ∀ b ∈ as, allBelow f h b n = true) :
    allBelow (f + 1) h a n = true := by
  simp only [allBelow, Bool.and_eq_true, decide_eq_true_eq]
  refine ⟨ha, ?_⟩
  rw [hnode]
  simpa [List.all_eq_true] using hch

/-- `allBelow` is monotone in the bound. -/
theorem allBelow_mono : ∀ (f : Nat) (h : Heap) (a n n2 : Nat),
    allBelow f h a n = true → n ≤ n2 → allBelow f h a n2 = true := by
  intro f
  induction f with
  | zero => intro _ _ _ _ hab; simp [allBelow] at hab
  | succ f ih =>
      intro h a n n2 hab hle
      obtain ⟨node, hnode⟩ := allBelow_node hab
      have ha := allBelow_lt hab
      simp only [allBelow, Bool.and_eq_true, decide_eq_true_eq]
      refine ⟨lt_of_lt_of_le ha hle, ?_⟩
      rw [hnode]
      cases node with
      | hmap es =>
          have := allBelow_map_children hab hnode
          simpa [List.all_eq_true] using fun p hp => ih h p.2 n n2 (this p hp) hle
      | hseq as =>
          have := allBelow_seq_children hab hnode
          simpa [List.all_eq_true] using fun b hb => ih h b n n2 (this b hb) hle
      | hstr s => simp
      | hint i => simp
      | hbool b => simp
      | hnull => simp

/-- `allBelow` is monotone in the fuel. -/
theorem allBelow_fuel : ∀ (f f2 : Nat) (h : Heap) (a n : Nat),
    allBelow f h a n = true → f ≤ f2 → allBelow f2 h a n = true := by
  intro f
  induction f with
  | zero => intro _ _ _ _ hab; simp [allBelow] at hab
  | succ f ih =>
      intro f2 h a n hab hle
      obtain ⟨f2', rfl⟩ : ∃ f2', f2 = f2' + 1 := by
        cases f2 with
        | zero => omega
        | succ f2' => exact ⟨f2', rfl⟩
      obtain ⟨node, hnode⟩ := allBelow_node hab
      have ha := allBelow_lt hab
      simp only [allBelow, Bool.and_eq_true, decide_eq_true_eq]
      refine ⟨ha, ?_⟩
      rw [hnode]
      cases node with
      | hmap es =>
          have := allBelow_map_children hab hnode
          simpa [List.all_eq_true] using
            fun p hp => ih f2' h p.2 n (this p hp) (by omega)
      | hseq as =>
          have := allBelow_seq_children hab hnode
          simpa [List.all_eq_true] using
            fun b hb => ih f2' h b n (this b hb) (by omega)
      | hstr s => simp
      | hint i => simp
      | hbool b => simp
      | hnull => simp

/-- `allBelow` transfers to any heap that agrees below the bound. -/
theorem allBelow_agree : ∀ (f : Nat) (h h2 : Heap) (a n : Nat),
    allBelow f h a n = true → (∀ i, i < n → h2[i]? = h[i]?) →
    allBelow f h2 a n = true := by
  intro f
  induction f with
  | zero => intro _ _ _ _ hab; simp [allBelow] at hab
  | succ f ih =>
      intro h h2 a n hab hag
      obtain ⟨node, hnode⟩ := allBelow_node hab
      have ha := allBelow_lt hab
      simp only [allBelow, Bool.and_eq_true, decide_eq_true_eq]
      refine ⟨ha, ?_⟩
      rw [hag a ha, hnode]
      cases node with
      | hmap es =>
          have := allBelow_map_children hab hnode
          simpa [List.all_eq_true] using fun p hp => ih h h2 p.2 n (this p hp) hag
      | hseq as =>
          have := allBelow_seq_children hab hnode
          simpa [List.all_eq_true] using fun b hb => ih h h2 b n (this b hb) hag
      | hstr s => simp
      | hint i => simp
      | hbool b => simp
      | hnull => simp

/-- Reading a bounded root gives the same value on any heap that agrees
below the bound, at every depth. -/
theorem readV_agree : ∀ (f : Nat) (h h2 : Heap) (a n : Nat),
    allBelow f h a n = true → (∀ i, i < n → h2[i]? = h[i]?) →
    ∀ g, readV g h2 a = readV g h a := by
  intro f
  induction f with
  | zero => intro _ _ _ _ hab; simp [allBelow] at hab
  | succ f ih =>
      intro h h2 a n hab hag g
      obtain ⟨node, hnode⟩ := allBelow_node hab
      have ha := allBelow_lt hab
      cases g with
      | zero => rfl
      | succ g =>
          cases node with
          | hmap es =>
              have hch := allBelow_map_children hab hnode
              have hmm : es.mapM (fun p => (readV g h2 p.2).map (fun v => (p.1, v)))
                  = es.mapM (fun p => (readV g h p.2).map (fun v => (p.1, v))) :=
                mapM_option_congr (fun p hp => by
                  rw [ih h h2 p.2 n (hch p hp) hag g])
              simp only [readV, hag a ha, hnode, hmm]
          | hseq as =>
              have hch := allBelow_seq_children hab hnode
              have hmm : as.mapM (fun b => readV g h2 b)
                  = as.mapM (fun b => readV g h b) :=
                mapM_option_congr (fun b hb => ih h h2 b n (hch b hb) hag g)
              simp only [readV, hag a ha, hnode, hmm]
          | hstr s => simp only [readV, hag a ha, hnode]
          | hint i => simp only [readV, hag a ha, hnode]
          | hbool b => simp only [readV, hag a ha, hnode]
          | hnull => simp only [readV, hag a ha, hnode]

/-- The reachable mutable addresses of a bounded root are the same on
any heap that agrees below the bound, at every depth. -/
theorem mutReach_agree : ∀ (f : Nat) (h h2 : Heap) (a n : Nat),
    allBelow f h a n = true → (∀ i, i < n → h2[i]? = h[i]?) →
    ∀ g, mutReach g h2 a = mutReach g h a := by
  intro f
  induction f with
  | zero => intro _ _ _ _ hab; simp [allBelow] at hab
  | succ f ih =>
      intro h h2 a n hab hag g
      obtain ⟨node, hnode⟩ := allBelow_node hab
      have ha := allBelow_lt hab
      cases g with
      | zero => rfl
      | succ g =>
          cases node with
          | hmap es =>
              have hch := allBelow_map_children hab hnode
              have hmm : es.map (fun p => mutReach g h2 p.2)
                  = es.map (fun p => mutReach g h p.2) :=
                List.map_congr_left (fun p hp => ih h h2 p.2 n (hch p hp) hag g)
              simp only [mutReach, hag a ha, hnode, hmm]
          | hseq as =>
              have hch := allBelow_seq_children hab hnode
              have hmm : as.map (fun b => mutReach g h2 b)
                  = as.map (fun b => mutReach g h b) :=
                List.map_congr_left (fun b hb => ih h h2 b n (hch b hb) hag g)
              simp only [mutReach, hag a ha, hnode, hmm]
          | hstr s => simp only [mutReach, hag a ha, hnode]
          | hint i => simp only [mutReach, hag a ha, hnode]
          | hbool b => simp only [mutReach, hag a ha, hnode]
          | hnull => simp only [mutReach, hag a ha, hnode]

/-- `copyFold` with a copying function satisfying `CopyOK`: the heap
only grows, the copied entries are well-formed and read back the source
values, and their reachable mutable nodes are fresh. -/
theorem copyFold_spec (copy : Heap → Nat → Option (Heap × Nat)) (hc : CopyOK copy) :
    ∀ (l : List (String × Nat)) (h h2 : Heap) (l2 : List (String × Nat)),
    copyFold copy h l = some (h2, l2) →
    (∃ tail, h2 = h ++ tail)
    ∧ (∀ F n, (∀ p ∈ l, allBelow F h p.2 n = true) → n ≤ h.length →
        (∀ p ∈ l2, allBelow F h2 p.2 h2.length = true)
        ∧ (∀ g, l2.mapM (fun p => (readV g h2 p.2).map (fun v => (p.1, v)))
              = l.mapM (fun p => (readV g h p.2).map (fun v => (p.1, v))))
        ∧ (∀ g m p, p ∈ l2 → m ∈ mutReach g h2 p.2 → h.length ≤ m)) := by
  intro l
  induction l with
  | nil =>
      intro h h2 l2 hcf
      simp only [copyFold, Option.some.injEq, Prod.mk.injEq] at hcf
      obtain ⟨rfl, rfl⟩ := hcf
      refine ⟨⟨[], (List.append_nil h).symm⟩, ?_⟩
      intro F n _ _
      exact ⟨by simp, fun g => rfl, by simp⟩
  | cons ka rest ih =>
      intro h h2 l2 hcf
      obtain ⟨k, a⟩ := ka
      simp only [copyFold] at hcf
      split at hcf
      · exact absurd hcf (by simp)
      rename_i h1 a1 hcp
      split at hcf
      · exact absurd hcf (by simp)
      rename_i hR restC hrest
      simp only [Option.some.injEq, Prod.mk.injEq] at hcf
      obtain ⟨rfl, rfl⟩ := hcf
      obtain ⟨⟨t1, he1⟩, hspec1⟩ := hc h a h1 a1 hcp
      obtain ⟨⟨t2, he2⟩, hspec2⟩ := ih h1 hR restC hrest
      refine ⟨⟨t1 ++ t2, by rw [he2, he1, List.append_assoc]⟩, ?_⟩
      intro F n hsrc hn
      have hag1 : ∀ i, i < n → h1[i]? = h[i]? := fun i hi => by
        rw [he1]; exact List.getElem?_append_left (lt_of_lt_of_le hi hn)
      have hlen1 : h.length ≤ h1.length := by rw [he1]; simp
      have hag2 : ∀ i, i < h1.length → hR[i]? = h1[i]? := fun i hi => by
        rw [he2]; exact List.getElem?_append_left hi
      have hlen2 : h1.length ≤ hR.length := by rw [he2]; simp
      have hsrcHead : allBelow F h a n = true := hsrc (k, a) (List.mem_cons_self _ _)
      obtain ⟨hb1, hr1, hm1⟩ := hspec1 F n hsrcHead hn
      have hsrcRest : ∀ p ∈ rest, allBelow F h1 p.2 n = true :=
        fun p hp => allBelow_agree F h h1 p.2 n (hsrc p (List.mem_cons_of_mem _ hp)) hag1
      obtain ⟨hb2, hr2, hm2⟩ := hspec2 F n hsrcRest (le_trans hn hlen1)
      refine ⟨?_, ?_, ?_⟩
      · intro p hp
        rcases List.mem_cons.mp hp with rfl | hp2
        · exact allBelow_mono F hR a1 h1.length hR.length
            (allBelow_agree F h1 hR a1 h1.length hb1 hag2) hlen2
        · exact hb2 p hp2
      · intro g
        have hhead : readV g hR a1 = readV g h a := by
          rw [readV_agree F h1 hR a1 h1.length hb1 hag2 g, hr1 g]
        have htailB : rest.mapM (fun p => (readV g h1 p.2).map (fun v => (p.1, v)))
            = rest.mapM (fun p => (readV g h p.2).map (fun v => (p.1, v))) :=
          mapM_option_congr (fun p hp => by
            rw [readV_agree F h h1 p.2 n (hsrc p (List.mem_cons_of_mem _ hp)) hag1 g])
        simp only [List.mapM_cons, hhead, hr2 g, htailB]
      · intro g m p hp hmm
        rcases List.mem_cons.mp hp with rfl | hp2
        · rw [mutReach_agree F h1 hR a1 h1.length hb1 hag2 g] at hmm
          exact hm1 g m hmm
        · exact le_trans hlen1 (hm2 g m p hp2 hmm)

/-- `copyFoldL` with a copying function satisfying `CopyOK`: the list
version of `copyFold_spec`. -/
theorem copyFoldL_spec (copy : Heap → Nat → Option (Heap × Nat)) (hc : CopyOK copy) :
    ∀ (l : List Nat) (h h2 : Heap) (l2 : List Nat),
    copyFoldL copy h l = some (h2, l2) →
    (∃ tail, h2 = h ++ tail)
    ∧ (∀ F n, (∀ b ∈ l, allBelow F h b n = true) → n ≤ h.length →
        (∀ b ∈ l2, allBelow F h2 b h2.length = true)
        ∧ (∀ g, l2.mapM (fun b => readV g h2 b) = l.mapM (fun b => readV g h b))
        ∧ (∀ g m b, b ∈ l2 → m ∈ mutReach g h2 b → h.length ≤ m)) := by
  intro l
  induction l with
  | nil =>
      intro h h2 l2 hcf
      simp only [copyFoldL, Option.some.injEq, Prod.mk.injEq] at hcf
      obtain ⟨rfl, rfl⟩ := hcf
      refine ⟨⟨[], (List.append_nil h).symm⟩, ?_⟩
      intro F n _ _
      exact ⟨by simp, fun g => rfl, by simp⟩
  | cons a rest ih =>
      intro h h2 l2 hcf
      simp only [copyFoldL] at hcf
      split at hcf
      · exact absurd hcf (by simp)
      rename_i h1 a1 hcp
      split at hcf
      · exact absurd hcf (by simp)
      rename_i hR restC hrest
      simp only [Option.some.injEq, Prod.mk.injEq] at hcf
      obtain ⟨rfl, rfl⟩ := hcf
      obtain ⟨⟨t1, he1⟩, hspec1⟩ := hc h a h1 a1 hcp
      obtain ⟨⟨t2, he2⟩, hspec2⟩ := ih h1 hR restC hrest
      refine ⟨⟨t1 ++ t2, by rw [he2, he1, List.append_assoc]⟩, ?_⟩
      intro F n hsrc hn
      have hag1 : ∀ i, i < n → h1[i]? = h[i]? := fun i hi => by
        rw [he1]; exact List.getElem?_append_left (lt_of_lt_of_le hi hn)
      have hlen1 : h.length ≤ h1.length := by rw [he1]; simp
      have hag2 : ∀ i, i < h1.length → hR[i]? = h1[i]? := fun i hi => by
        rw [he2]; exact List.getElem?_append_left hi
      have hlen2 : h1.length ≤ hR.length := by rw [he2]; simp
      have hsrcHead : allBelow F h a n = true := hsrc a (List.mem_cons_self _ _)
      obtain ⟨hb1, hr1, hm1⟩ := hspec1 F n hsrcHead hn
      have hsrcRest : ∀ b ∈ rest, allBelow F h1 b n = true :=
        fun b hb => allBelow_agree F h h1 b n (hsrc b (List.mem_cons_of_mem _ hb)) hag1
      obtain ⟨hb2, hr2, hm2⟩ := hspec2 F n hsrcRest (le_trans hn hlen1)
      refine ⟨?_, ?_, ?_⟩
      · intro b hb
        rcases List.mem_cons.mp hb with heq | hb2x
        · rw [heq]
          exact allBelow_mono F hR a1 h1.length hR.length
            (allBelow_agree F h1 hR a1 h1.length hb1 hag2) hlen2
        · exact hb2 b hb2x
      · intro g
        have hhead : readV g hR a1 = readV g h a := by
          rw [readV_agree F h1 hR a1 h1.length hb1 hag2 g, hr1 g]
        have htailB : rest.mapM (fun b => readV g h1 b)
            = rest.mapM (fun b => readV g h b) :=
          mapM_option_congr (fun b hb => by
            rw [readV_agree F h h1 b n (hsrc b (List.mem_cons_of_mem _ hb)) hag1 g])
        simp only [List.mapM_cons, hhead, hr2 g, htailB]
      · intro g m b hb hmm
        rcases List.mem_cons.mp hb with heq | hb2x
        · rw [heq] at hmm
          rw [mutReach_agree F h1 hR a1 h1.length hb1 hag2 g] at hmm
          exact hm1 g m hmm
        · exact le_trans hlen1 (hm2 g m b hb2x hmm)

/-- A scalar node reaches no mutable address. -/
theorem mutReach_scalar {h : Heap} {a : Nat} {node : HVal}
    (hnode : h[a]? = some node) (hm : ∀ es, node ≠ HVal.hmap es)
    (hs : ∀ as, node ≠ HVal.hseq as) : ∀ g, mutReach g h a = [] := by
  intro g
  cases g with
  | zero => rfl
  | succ g =>
      cases node with
      | hmap es => exact absurd rfl (hm es)
      | hseq as => exact absurd rfl (hs as)
      | hstr s => simp [mutReach, hnode]
      | hint i => simp [mutReach, hnode]
      | hbool b => simp [mutReach, hnode]
      | hnull => simp [mutReach, hnode]

/-- `copy.deepcopy` satisfies the copying contract at every fuel: the
heap only grows, the copy is well-formed, reads back the source value at
every depth, and every mutable node it reaches is freshly allocated. -/
theorem deepcopy_spec : ∀ f, CopyOK (deepcopy f) := by
  intro f
  induction f with
  | zero =>
      intro h a h2 r hdc
      simp [deepcopy] at hdc
  | succ f ih =>
      intro h a h2 r hdc
      simp only [deepcopy] at hdc
      split at hdc
      · exact absurd hdc (by simp)
      · rename_i s hnode
        simp only [Option.some.injEq, Prod.mk.injEq] at hdc
        obtain ⟨rfl, rfl⟩ := hdc
        refine ⟨⟨[], (List.append_nil h).symm⟩, ?_⟩
        intro F n hab hn
        refine ⟨allBelow_mono F h a n h.length hab hn, fun g => rfl, ?_⟩
        intro g m hmm
        rw [mutReach_scalar hnode (fun es hx => nomatch hx) (fun as hx => nomatch hx) g]
          at hmm
        exact absurd hmm (List.not_mem_nil m)
      · rename_i i hnode
        simp only [Option.some.injEq, Prod.mk.injEq] at hdc
        obtain ⟨rfl, rfl⟩ := hdc
        refine ⟨⟨[], (List.append_nil h).symm⟩, ?_⟩
        intro F n hab hn
        refine ⟨allBelow_mono F h a n h.length hab hn, fun g => rfl, ?_⟩
        intro g m hmm
        rw [mutReach_scalar hnode (fun es hx => nomatch hx) (fun as hx => nomatch hx) g]
          at hmm
        exact absurd hmm (List.not_mem_nil m)
      · rename_i b hnode
        simp only [Option.some.injEq, Prod.mk.injEq] at hdc
        obtain ⟨rfl, rfl⟩ := hdc
        refine ⟨⟨[], (List.append_nil h).symm⟩, ?_⟩
        intro F n hab hn
        refine ⟨allBelow_mono F h a n h.length hab hn, fun g => rfl, ?_⟩
        intro g m hmm
        rw [mutReach_scalar hnode (fun es hx => nomatch hx) (fun as hx => nomatch hx) g]
          at hmm
        exact absurd hmm (List.not_mem_nil m)
      · rename_i hnode
        simp only [Option.some.injEq, Prod.mk.injEq] at hdc
        obtain ⟨rfl, rfl⟩ := hdc
        refine ⟨⟨[], (List.append_nil h).symm⟩, ?_⟩
        intro F n hab hn
        refine ⟨allBelow_mono F h a n h.length hab hn, fun g => rfl, ?_⟩
        intro g m hmm
        rw [mutReach_scalar hnode (fun es hx => nomatch hx) (fun as hx => nomatch hx) g]
          at hmm
        exact absurd hmm (List.not_mem_nil m)
      · rename_i es hnode
        split at hdc
        · exact absurd hdc (by simp)
        rename_i h1 es1 hcf
        simp only [Option.some.injEq, Prod.mk.injEq] at hdc
        obtain ⟨rfl, rfl⟩ := hdc
        obtain ⟨⟨t1, he1⟩, hP⟩ :=
          copyFold_spec (fun hh aa => deepcopy f hh aa) ih es h h1 es1 hcf
        refine ⟨⟨t1 ++ [HVal.hmap es1], by rw [he1, List.append_assoc]⟩, ?_⟩
        intro F n hab hn
        obtain ⟨F1, rfl⟩ : ∃ F1, F = F1 + 1 := by
          cases F with
          | zero => simp [allBelow] at hab
          | succ F1 => exact ⟨F1, rfl⟩
        have hch := allBelow_map_children hab hnode
        obtain ⟨hbs, hrv, hms⟩ := hP F1 n hch hn
        have hlen1 : h.length ≤ h1.length := by rw [he1]; simp
        have hnodeR : (h1 ++ [HVal.hmap es1])[h1.length]? = some (HVal.hmap es1) :=
          List.getElem?_concat_length _ _
        have hag2 : ∀ i, i < h1.length → (h1 ++ [HVal.hmap es1])[i]? = h1[i]? :=
          fun i hi => List.getElem?_append_left hi
        refine ⟨?_, ?_, ?_⟩
        · refine allBelow_succ_map (by simp) hnodeR ?_
          intro p hp
          exact allBelow_mono F1 _ p.2 h1.length _
            (allBelow_agree F1 h1 _ p.2 h1.length (hbs p hp) hag2) (by simp)
        · intro g
          cases g with
          | zero => rfl
          | succ g =>
              have hinner :
                  es1.mapM (fun p =>
                    (readV g (h1 ++ [HVal.hmap es1]) p.2).map (fun v => (p.1, v)))
                  = es1.mapM (fun p => (readV g h1 p.2).map (fun v => (p.1, v))) :=
                mapM_option_congr (fun p hp => by
                  rw [readV_agree F1 h1 _ p.2 h1.length (hbs p hp) hag2 g])
              simp only [readV, hnodeR, hnode, hinner, hrv g]
        · intro g m hmm
          cases g with
          | zero => exact absurd hmm (by simp [mutReach])
          | succ g =>
              simp only [mutReach, hnodeR] at hmm
              rcases List.mem_cons.mp hmm with heq | hflat
              · rw [heq]; exact hlen1
              · obtain ⟨s, hs, hmins⟩ := List.mem_flatten.mp hflat
                obtain ⟨p, hp, rfl⟩ := List.mem_map.mp hs
                rw [mutReach_agree F1 h1 _ p.2 h1.length (hbs p hp) hag2 g] at hmins
                exact hms g m p hp hmins
      · rename_i as hnode
        split at hdc
        · exact absurd hdc (by simp)
        rename_i h1 as1 hcf
        simp only [Option.some.injEq, Prod.mk.injEq] at hdc
        obtain ⟨rfl, rfl⟩ := hdc
        obtain ⟨⟨t1, he1⟩, hP⟩ :=
          copyFoldL_spec (fun hh aa => deepcopy f hh aa) ih as h h1 as1 hcf
        refine ⟨⟨t1 ++ [HVal.hseq as1], by rw [he1, List.append_assoc]⟩, ?_⟩
        intro F n hab hn
        obtain ⟨F1, rfl⟩ : ∃ F1, F = F1 + 1 := by
          cases F with
          | zero => simp [allBelow] at hab
          | succ F1 => exact ⟨F1, rfl⟩
        have hch := allBelow_seq_children hab hnode
        obtain ⟨hbs, hrv, hms⟩ := hP F1 n hch hn
        have hlen1 : h.length ≤ h1.length := by rw [he1]; simp
        have hnodeR : (h1 ++ [HVal.hseq as1])[h1.length]? = some (HVal.hseq as1) :=
          List.getElem?_concat_length _ _
        have hag2 : ∀ i, i < h1.length → (h1 ++ [HVal.hseq as1])[i]? = h1[i]? :=
          fun i hi => List.getElem?_append_left hi
        refine ⟨?_, ?_, ?_⟩
        · refine allBelow_succ_seq (by simp) hnodeR ?_
          intro b hb
          exact allBelow_mono F1 _ b h1.length _
            (allBelow_agree F1 h1 _ b h1.length (hbs b hb) hag2) (by simp)
        · intro g
          cases g with
          | zero => rfl
          | succ g =>
              have hinner :
                  as1.mapM (fun b => readV g (h1 ++ [HVal.hseq as1]) b)
                  = as1.mapM (fun b => readV g h1 b) :=
                mapM_option_congr (fun b hb => by
                  rw [readV_agree F1 h1 _ b h1.length (hbs b hb) hag2 g])
              simp only [readV, hnodeR, hnode, hinner, hrv g]
        · intro g m hmm
          cases g with
          | zero => exact absurd hmm (by simp [mutReach])
          | succ g =>
              simp only [mutReach, hnodeR] at hmm
              rcases List.mem_cons.mp hmm with heq | hflat
              · rw [heq]; exact hlen1
              · obtain ⟨s, hs, hmins⟩ := List.mem_flatten.mp hflat
                obtain ⟨b, hb, rfl⟩ := List.mem_map.mp hs
                rw [mutReach_agree F1 h1 _ b h1.length (hbs b hb) hag2 g] at hmins
                exact hms g m b hb hmins

/-- An empty walk stays at the root. -/
theorem heapWalk_nil {h : Heap} {root a : Nat}
    (hw : heapWalk h root [] = some (.ok a)) : a = root := by
  simp only [heapWalk, Option.some.injEq, Except.ok.injEq] at hw
  exact hw.symm

/-- A successful walk step goes through a dictionary node: the key is
found among its entries and the walk continues from the entry's
address. -/
theorem heapWalk_cons {h : Heap} {root a : Nat} {key : String} {rest : List String}
    (hw : heapWalk h root (key :: rest) = some (.ok a)) :
    ∃ es p, h[root]? = some (.hmap es)
      ∧ es.find? (fun q => q.1 == key) = some p
      ∧ heapWalk h p.2 rest = some (.ok a) := by
  simp only [heapWalk] at hw
  split at hw
  · exact absurd hw (by simp)
  · exact absurd hw (by simp)
  · rename_i b hcont
    split at hw
    · split at hw
      · exact absurd hw (by simp)
      · exact absurd hw (by simp)
      · rename_i a1 hdot
        unfold heapDotGet at hdot
        split at hdot
        · exact absurd hdot (by simp)
        · rename_i es hnode
          split at hdot
          · rename_i p hfind
            simp only [Option.some.injEq, Except.ok.injEq] at hdot
            exact ⟨es, p, hnode, hfind, by rw [← hdot] at hw; exact hw⟩
          · exact absurd hdot (by simp)
        · exact absurd hdot (by simp)
    · exact absurd hw (by simp)

/-- Walking from a bounded root ends at a bounded address. -/
theorem heapWalk_wf : ∀ (keys : List String) (f : Nat) (h : Heap) (root a n : Nat),
    allBelow f h root n = true → heapWalk h root keys = some (.ok a) →
    allBelow f h a n = true := by
  intro keys
  induction keys with
  | nil =>
      intro f h root a n hab hw
      rw [heapWalk_nil hw]
      exact hab
  | cons key rest ih =>
      intro f h root a n hab hw
      obtain ⟨es, p, hnode, hfind, hw2⟩ := heapWalk_cons hw
      obtain ⟨f1, rfl⟩ : ∃ f1, f = f1 + 1 := by
        cases f with
        | zero => simp [allBelow] at hab
        | succ f1 => exact ⟨f1, rfl⟩
      have hchild : allBelow f1 h p.2 n = true :=
        allBelow_map_children hab hnode p (List.mem_of_find?_eq_some hfind)
      exact ih (f1 + 1) h p.2 a n
        (allBelow_fuel f1 (f1 + 1) h p.2 n hchild (by omega)) hw2

/-- Decompose a successful `heapGet` into its walk and its copy. -/
theorem heapGet_elim {fuel : Nat} {h : Heap} {root : Nat} {keys : List String}
    {h2 : Heap} {r : Nat} (hg : heapGet fuel h root keys = some (.ok (h2, r))) :
    ∃ a, heapWalk h root keys = some (.ok a) ∧ deepcopy fuel h a = some (h2, r) := by
  simp only [heapGet] at hg
  split at hg
  · exact absurd hg (by simp)
  · exact absurd hg (by simp)
  · rename_i a hwalk
    split at hg
    · exact absurd hg (by simp)
    · rename_i h3 r3 hdc
      simp only [Option.some.injEq, Except.ok.injEq, Prod.mk.injEq] at hg
      obtain ⟨rfl, rfl⟩ := hg
      exact ⟨a, hwalk, hdc⟩

/-- A successful `get` only extends the heap: the stored document reads
back unchanged at every depth. -/
theorem heapGet_preserves {fuel f : Nat} {h : Heap} {root : Nat} {keys : List String}
    {h2 : Heap} {r : Nat} (hwf : allBelow f h root h.length = true)
    (hg : heapGet fuel h root keys = some (.ok (h2, r))) :
    (∃ tail, h2 = h ++ tail) ∧ (∀ g, readV g h2 root = readV g h root) := by
  obtain ⟨a, hwalk, hdc⟩ := heapGet_elim hg
  obtain ⟨⟨t, ht⟩, -⟩ := deepcopy_spec fuel h a h2 r hdc
  refine ⟨⟨t, ht⟩, fun g => ?_⟩
  exact readV_agree f h h2 root h.length hwf
    (fun i hi => by rw [ht]; exact List.getElem?_append_left hi) g

/-- A successful `get` hands back a well-formed copy that reads back the
value at the walked address, with only fresh mutable nodes. -/
theorem heapGet_copy {fuel f : Nat} {h : Heap} {root a : Nat} {keys : List String}
    {h2 : Heap} {r : Nat} (hwf : allBelow f h root h.length = true)
    (hwalk : heapWalk h root keys = some (.ok a))
    (hg : heapGet fuel h root keys = some (.ok (h2, r))) :
    allBelow f h2 r h2.length = true
    ∧ (∀ g, readV g h2 r = readV g h a)
    ∧ (∀ g m, m ∈ mutReach g h2 r → h.length ≤ m) := by
  obtain ⟨a', hwalk', hdc⟩ := heapGet_elim hg
  have haa : a' = a := by
    rw [hwalk] at hwalk'
    simpa using hwalk'.symm
  subst haa
  have haw := heapWalk_wf keys f h root a' h.length hwf hwalk
  exact (deepcopy_spec fuel h a' h2 r hdc).2 f h.length haw (le_refl _)

/-- Claim C6: every successful `get` returns an independent deep copy of
the value at the end of the key path.  On the heap model: (1) `get`
leaves the stored document unchanged; (2) the returned object reads back
exactly the value at the walked address; (3) two consecutive `get()`
calls return deep-equal results; (4) every mutable node reachable from
the returned object is freshly allocated, so (5) overwriting such a node
leaves the stored document unchanged; and (6) `has_key` leaves the
stored document unchanged as well. -/
theorem claim_C6_get_returns_independent_deep_copy
    (f g : Nat) (h : Heap) (root : Nat) (keys ks2 : List String) (a : Nat)
    (h' h1 h2 hk : Heap) (r r1 r2 : Nat) (b : Bool) (m : Nat) (x : HVal)
    (hwf : allBelow f h root h.length = true)
    (hwalk : heapWalk h root keys = some (.ok a))
    (hget : heapGet f h root keys = some (.ok (h', r)))
    (hget1 : heapGet f h root [] = some (.ok (h1, r1)))
    (hget2 : heapGet f h1 root [] = some (.ok (h2, r2)))
    (hm : m ∈ mutReach g h' r)
    (hhk : heapHasKey f h root ks2 = some (.ok (hk, b))) :
    readV g h' root = readV g h root
    ∧ readV g h' r = readV g h a
    ∧ readV g h2 r2 = readV g h1 r1
    ∧ h.length ≤ m
    ∧ readV g (heapWrite h' m x) root = readV g h root
    ∧ readV g hk root = readV g h root := by
  obtain ⟨⟨t, ht⟩, hpres⟩ := heapGet_preserves hwf hget
  obtain ⟨hwfr, hcopy, hmut⟩ := heapGet_copy hwf hwalk hget
  have hwalk1 : heapWalk h root [] = some (.ok root) := rfl
  obtain ⟨-, hcopy1, -⟩ := heapGet_copy hwf hwalk1 hget1
  obtain ⟨⟨t1x, ht1⟩, hpres1⟩ := heapGet_preserves hwf hget1
  have hwfh1 : allBelow f h1 root h1.length = true :=
    allBelow_mono f h1 root h.length h1.length
      (allBelow_agree f h h1 root h.length hwf
        (fun i hi => by rw [ht1]; exact List.getElem?_append_left hi))
      (by rw [ht1]; simp)
  have hwalk2 : heapWalk h1 root [] = some (.ok root) := rfl
  obtain ⟨-, hcopy2, -⟩ := heapGet_copy hwfh1 hwalk2 hget2
  have hfresh : h.length ≤ m := hmut g m hm
  refine ⟨hpres g, hcopy g, ?_, hfresh, ?_, ?_⟩
  · rw [hcopy2 g, hcopy1 g]
    exact hpres1 g
  · exact readV_agree f h (heapWrite h' m x) root h.length hwf
      (fun i hi => by
        unfold heapWrite
        rw [List.getElem?_set_ne (show m ≠ i by omega)]
        rw [ht]
        exact List.getElem?_append_left hi) g
  · unfold heapHasKey at hhk
    split at hhk
    · exact absurd hhk (by simp)
    · rename_i hh rr hgk
      simp only [Option.some.injEq, Except.ok.injEq, Prod.mk.injEq] at hhk
      obtain ⟨rfl, -⟩ := hhk
      exact (heapGet_preserves hwf hgk).2 g
    · rename_i msg hgk
      simp only [Option.some.injEq, Except.ok.injEq, Prod.mk.injEq] at hhk
      obtain ⟨rfl, -⟩ := hhk
      rfl
    · exact absurd hhk (by simp)

/-- Witness for C6 on the heap of the nested example document: a `get`
of PARENT, two consecutive `get()` calls, a `has_key` of a missing key,
and a mutation of the returned copy's dictionary node at its fresh
address 3. -/
theorem claim_C6_witness :
    readV 3 (exampleHeap ++ [.hmap [("CHILD", 0)]]) 2 = readV 3 exampleHeap 2
    ∧ readV 3 (exampleHeap ++ [.hmap [("CHILD", 0)]]) 3 = readV 3 exampleHeap 1
    ∧ readV 3 (exampleHeap ++ [.hmap [("CHILD", 0)], .hmap [("PARENT", 3)]]
          ++ [.hmap [("CHILD", 0)], .hmap [("PARENT", 5)]]) 6
      = readV 3 (exampleHeap ++ [.hmap [("CHILD", 0)], .hmap [("PARENT", 3)]]) 4
    ∧ exampleHeap.length ≤ 3
    ∧ readV 3 (heapWrite (exampleHeap ++ [.hmap [("CHILD", 0)]]) 3 (.hmap [])) 2
      = readV 3 exampleHeap 2
    ∧ readV 3 exampleHeap 2 = readV 3 exampleHeap 2 := by
  exact claim_C6_get_returns_independent_deep_copy 3 3 exampleHeap 2 ["PARENT"]
    ["MISSING"] 1 _ _ _ _ 3 4 6 false 3 (.hmap [])
    rfl rfl rfl rfl rfl (by decide) rfl

/-- Claim C7: rendering is strict-undefined — when the template
references a variable with no binding, `init` fails with the
undefined-variable error naming the first such variable and leaves the
store untouched; and a supplied variable the template never references
changes nothing, so `init` behaves as if it were not passed. -/
theorem claim_C7_strict_undefined_rendering (c : Config)
    (parse : String → Except PyError (Option Val)) (t : Template)
    (vars : List (String × String)) (m n n2 s : String) :
    (c.items = none →
      (refNames t).find? (fun k => (lookupVar vars k).isNone) = some m →
      c._init parse t vars = (some (.UndefinedError m), c))
    ∧ (n ∈ refNames t → lookupVar vars n = none →
        ((refNames t).find? (fun k => (lookupVar vars k).isNone)).isSome = true)
    ∧ (n2 ∉ refNames t →
        c._init parse t ((n2, s) :: vars) = c._init parse t vars) := by
  refine ⟨?_, ?_, ?_⟩
  · intro hnone hfind
    simp [Config._init, hnone, render_error_of_firstMissing hfind]
  · intro hn hmiss
    exact List.find?_isSome.mpr ⟨n, hn, by simp [hmiss]⟩
  · intro hn2
    unfold Config._init
    rw [render_unused hn2]

/-- Witness for C7 at the templates of the module's tests: omitting
jinja_two fails with the undefined-variable error naming it, and an
extra unused jinja_three is ignored. -/
theorem claim_C7_witness :
    Config._init ⟨none⟩ exampleParse [.subst "jinja_one", .lit ": ", .subst "jinja_two"]
        [("jinja_one", "key")]
      = (some (.UndefinedError "jinja_two"), ⟨none⟩)
    ∧ ((refNames [Segment.subst "jinja_one", .lit ": ", .subst "jinja_two"]).find?
        (fun k => (lookupVar [("jinja_one", "key")] k).isNone)).isSome = true
    ∧ Config._init ⟨none⟩ exampleParse [.subst "jinja_one", .lit ": ", .subst "jinja_two"]
        (("jinja_three", "extra") :: [("jinja_one", "key"), ("jinja_two", "val")])
      = Config._init ⟨none⟩ exampleParse [.subst "jinja_one", .lit ": ", .subst "jinja_two"]
          [("jinja_one", "key"), ("jinja_two", "val")] := by
  refine ⟨?_, ?_, ?_⟩
  · exact (claim_C7_strict_undefined_rendering ⟨none⟩ exampleParse
      [.subst "jinja_one", .lit ": ", .subst "jinja_two"] [("jinja_one", "key")]
      "jinja_two" "jinja_two" "jinja_three" "extra").1 rfl rfl
  · exact (claim_C7_strict_undefined_rendering ⟨none⟩ exampleParse
      [.subst "jinja_one", .lit ": ", .subst "jinja_two"] [("jinja_one", "key")]
      "jinja_two" "jinja_two" "jinja_three" "extra").2.1 (by simp [refNames]) rfl
  · exact (claim_C7_strict_undefined_rendering ⟨none⟩ exampleParse
      [.subst "jinja_one", .lit ": ", .subst "jinja_two"]
      [("jinja_one", "key"), ("jinja_two", "val")]
      "jinja_two" "jinja_two" "jinja_three" "extra").2.2 (by decide)

/-- Claim C8: when the rendered text is empty or whitespace-only — so
the parser returns `None` — `init` on an uninitialized store succeeds
and stores the empty mapping, a state distinct from uninitialized, and
`get()` returns the empty mapping. -/
theorem claim_C8_empty_text_gives_empty_mapping (c : Config)
    (parse : String → Except PyError (Option Val)) (t : Template)
    (vars : List (String × String)) (txt : String) :
    c.items = none → render t vars = .ok txt → whitespaceOnly txt = true →
    parse txt = .ok none →
    c._init parse t vars = (none, ⟨some (.map [])⟩)
    ∧ Config.get ⟨some (.map [])⟩ [] = .ok (.map [])
    ∧ some (Val.map []) ≠ (none : Option Val) := by
  intro hnone hr _ hp
  exact ⟨by simp [Config._init, hnone, hr, hp, orEmpty], rfl, by simp⟩

/-- Witness for C8 at the empty template. -/
theorem claim_C8_witness :
    Config._init ⟨none⟩ exampleParse [.lit ""] [] = (none, ⟨some (.map [])⟩)
    ∧ Config.get ⟨some (.map [])⟩ [] = .ok (.map [])
    ∧ some (Val.map []) ≠ (none : Option Val) :=
  claim_C8_empty_text_gives_empty_mapping ⟨none⟩ exampleParse [.lit ""] [] ""
    rfl rfl rfl rfl

/-- Claim C9: on the nested document mapping PARENT to the mapping of
CHILD to VAL, `get("PARENT","CHILD")` returns VAL, `get("PARENT")`
returns the child mapping, `get()` returns the whole document,
`get("MISSING")` fails with the key-not-found `ValueError`, and
`has_key("MISSING")` returns `False`. -/
theorem claim_C9_nested_lookup_semantics :
    Config.get ⟨some (.map [("PARENT", .map [("CHILD", .str "VAL")])])⟩
        ["PARENT", "CHILD"] = .ok (.str "VAL")
    ∧ Config.get ⟨some (.map [("PARENT", .map [("CHILD", .str "VAL")])])⟩
        ["PARENT"] = .ok (.map [("CHILD", .str "VAL")])
    ∧ Config.get ⟨some (.map [("PARENT", .map [("CHILD", .str "VAL")])])⟩
        [] = .ok (.map [("PARENT", .map [("CHILD", .str "VAL")])])
    ∧ Config.get ⟨some (.map [("PARENT", .map [("CHILD", .str "VAL")])])⟩
        ["MISSING"] = .error (.ValueError "MISSING is not found in config.")
    ∧ Config.has_key ⟨some (.map [("PARENT", .map [("CHILD", .str "VAL")])])⟩
        ["MISSING"] = .ok false :=
  ⟨rfl, rfl, rfl, rfl, rfl⟩

/-- Claim C10: whenever the parse result of the rendered text is falsy
(`None`, `False`, `0`, an empty string, sequence or mapping), `init`
stores the empty mapping in its place, so `get()` afterwards returns the
empty mapping — such documents are indistinguishable from an empty
configuration. -/
theorem claim_C10_falsy_parse_stored_as_empty_mapping (c : Config)
    (parse : String → Except PyError (Option Val)) (t : Template)
    (vars : List (String × String)) (txt : String) (v : Val) :
    c.items = none → render t vars = .ok txt → parse txt = .ok (some v) →
    truthy v = false →
    c._init parse t vars = (none, ⟨some (.map [])⟩)
    ∧ Config.get ⟨some (.map [])⟩ [] = .ok (.map []) := by
  intro hnone hr hp ht
  exact ⟨by simp [Config._init, hnone, hr, hp, orEmpty, ht], rfl⟩

/-- Witness for C10 at the document `false`, which parses to the boolean
`False` yet is stored as the empty mapping. -/
theorem claim_C10_witness :
    Config._init ⟨none⟩ exampleParse [.lit "false"] [] = (none, ⟨some (.map [])⟩)
    ∧ Config.get ⟨some (.map [])⟩ [] = .ok (.map []) :=
  claim_C10_falsy_parse_stored_as_empty_mapping ⟨none⟩ exampleParse [.lit "false"] []
    "false" (.bool false) rfl (by simp [render, String.append_empty]) rfl rfl

end YamlConfig
